import Mathlib

/-!
Verification of the persistence core of `document-pilot` (the `ProjectStorage`
class): file-name sanitization, on-disk path layout, the debounced write
scheduler, the document blob store, schema-upgrading loaders, and the legacy
migration. All definitions are shallow embeddings of the TypeScript source.
-/

namespace DocumentPilot

/-- `DocumentKind` from `shared/contracts.ts`: `'tabular' | 'pdf'`. -/
inductive DocumentKind where
  | tabular
  | pdf
deriving DecidableEq, Repr

/-- A character kept verbatim by `sanitizeFileName`: the JS character class
`[a-zA-Z0-9._-]` (everything else is replaced by an underscore). -/
def isSafeChar (c : Char) : Bool :=
  (('a' ≤ c && c ≤ 'z') || ('A' ≤ c && c ≤ 'Z') || ('0' ≤ c && c ≤ '9')
    || c = '.' || c = '_' || c = '-')

/-- `sanitizeFileName(name)`: replace every character outside `[a-zA-Z0-9._-]`
by `'_'`, then truncate to 200 characters (`.replace(...).slice(0, 200)`). -/
def sanitizeFileName (name : String) : String :=
  ((name.data.map (fun c => if isSafeChar c then c else '_')).take 200).asString

/-- ASCII lower-casing of one character (the effect of JS `toLowerCase` on
the ASCII file names involved here). -/
def lowerChar (c : Char) : Char :=
  if 'A' ≤ c && c ≤ 'Z' then Char.ofNat (c.toNat + 32) else c

/-- `inferDocumentKind(fileName)`: `fileName.toLowerCase().endsWith('.pdf')`
means `pdf`, everything else is `tabular`. -/
def inferDocumentKind (fileName : String) : DocumentKind :=
  if (".pdf".data).isSuffixOf (fileName.data.map lowerChar) then .pdf else .tabular

/-!
On-disk paths. The source builds paths with `path.join(baseDir, ...)`; since
every joined segment below the base directory is either a literal without a
separator or a `sanitizeFileName` image (which contains no separator), we model
a path as its list of segments relative to `baseDir`.
-/

/-- `appStatePath`: `<base>/app-state.json`. -/
def appStatePath : List String := ["app-state.json"]

/-- `projectDir(projectId)`: `<base>/projects/<sanitized-id>`. -/
def projectDir (projectId : String) : List String :=
  ["projects", sanitizeFileName projectId]

/-- `projectJsonPath(projectId)`: `<base>/projects/<sanitized-id>/project.json`. -/
def projectJsonPath (projectId : String) : List String :=
  projectDir projectId ++ ["project.json"]

/-- `projectDocsDir(projectId)`: `<base>/projects/<sanitized-id>/documents`. -/
def projectDocsDir (projectId : String) : List String :=
  projectDir projectId ++ ["documents"]

/-- `threadDocsDir(threadId)`: `<base>/threads/<sanitized-id>/documents`. -/
def threadDocsDir (threadId : String) : List String :=
  ["threads", sanitizeFileName threadId, "documents"]

/-- `resolveDocsDir(targetId, isThread)`. -/
def resolveDocsDir (targetId : String) (isThread : Bool) : List String :=
  if isThread then threadDocsDir targetId else projectDocsDir targetId

/-- The scheduler key used by `saveProject`: `` `project:${project.id}` ``. -/
def projectSchedKey (projectId : String) : String :=
  "project:" ++ projectId

/-!
The debounced write scheduler. `ProjectStorage` holds two `Map`s,
`debounceTimers : key -> timer` and `pendingWrites : key -> {filePath, data}`.
We model a JS `Map` as an association list in insertion order (`Map.set` on an
existing key keeps its position, as does our `alSet`), timers as numeric ids
handed out by a counter, and the set of timers that can no longer fire (either
cleared via `clearTimeout` or already fired) as a `dead` list. Performed
physical writes are recorded in order in `writes`.
-/

/-- Look up a key in an association list (JS `Map.get`). -/
def alGet {α : Type} (l : List (String × α)) (k : String) : Option α :=
  match l with
  | [] => none
  | (k', v) :: rest => if k' = k then some v else alGet rest k

/-- Insert or replace a binding (JS `Map.set`): an existing key keeps its
position, a new key is appended. -/
def alSet {α : Type} (l : List (String × α)) (k : String) (v : α) :
    List (String × α) :=
  match l with
  | [] => [(k, v)]
  | (k', v') :: rest => if k' = k then (k, v) :: rest else (k', v') :: alSet rest k v

/-- Remove a binding (JS `Map.delete`). -/
def alErase {α : Type} (l : List (String × α)) (k : String) : List (String × α) :=
  l.filter (fun e => e.1 ≠ k)

/-- A pending payload: the `{ filePath, data }` record of `pendingWrites`.
Paths are segment lists as above. -/
structure Payload where
  filePath : List String
  data : String
deriving DecidableEq, Repr

/-- State of the debounced write scheduler (the `debounceTimers` and
`pendingWrites` maps of `ProjectStorage`), together with the bookkeeping
needed to talk about timer events: `meta` records, for each timer id ever
created, the key and the payload its callback closure captured; `dead` lists
timer ids that were cancelled or have fired; `writes` is the trace of
physical writes performed. -/
structure SchedState where
  timers : List (String × Nat)
  pending : List (String × Payload)
  meta : List (Nat × String × Payload)
  dead : List Nat
  nextId : Nat
  writes : List Payload
deriving DecidableEq, Repr

/-- The scheduler state of a fresh `ProjectStorage`: both maps empty. -/
def schedInit : SchedState :=
  { timers := [], pending := [], meta := [], dead := [], nextId := 0, writes := [] }

/-- Timer-metadata lookup by id. -/
def metaGet (l : List (Nat × String × Payload)) (t : Nat) : Option (String × Payload) :=
  match l with
  | [] => none
  | (t', e) :: rest => if t' = t then some e else metaGet rest t

/-- `debouncedWrite(key, filePath, data)`: clear the key's existing timer if
any, store the payload in `pendingWrites`, and arm a fresh timer whose
callback captures `key`, `filePath` and `data`. -/
def debouncedWrite (s : SchedState) (key : String) (p : Payload) : SchedState :=
  { timers := alSet s.timers key s.nextId
    pending := alSet s.pending key p
    meta := (s.nextId, key, p) :: s.meta
    dead :=
      match alGet s.timers key with
      | some t => t :: s.dead
      | none => s.dead
    nextId := s.nextId + 1
    writes := s.writes }

/-- A timer firing (the `setTimeout` callback of `debouncedWrite`): a timer
that was cleared, has already fired, or never existed does nothing; otherwise
the callback deletes its key from both maps and performs the captured write
(the write failure is caught and only logged, so no error escapes). -/
def timerFire (s : SchedState) (t : Nat) : SchedState :=
  if t ∈ s.dead then s
  else
    match metaGet s.meta t with
    | none => s
    | some (key, p) =>
      { timers := alErase s.timers key
        pending := alErase s.pending key
        meta := s.meta
        dead := t :: s.dead
        nextId := s.nextId
        writes := s.writes ++ [p] }

/-- `flush()`: walk `debounceTimers`, clearing every timer and collecting the
pending payload of each key; then clear both maps; all collected writes are
performed (and awaited via `Promise.all`). -/
def flushSched (s : SchedState) : SchedState :=
  { timers := []
    pending := []
    meta := s.meta
    dead := s.timers.map (fun e => e.2) ++ s.dead
    nextId := s.nextId
    writes := s.writes ++ s.timers.filterMap (fun e => alGet s.pending e.1) }

/-- The three events that change scheduler state. -/
inductive SchedOp where
  | write (key : String) (p : Payload)
  | fire (t : Nat)
  | flushAll
deriving DecidableEq, Repr

/-- One scheduler step. -/
def schedStep (s : SchedState) (op : SchedOp) : SchedState :=
  match op with
  | .write key p => debouncedWrite s key p
  | .fire t => timerFire s t
  | .flushAll => flushSched s

/-- A run of `debouncedWrite` calls on one key. -/
def scheduleRun (s : SchedState) (key : String) (ps : List Payload) : SchedState :=
  ps.foldl (fun s' p => debouncedWrite s' key p) s

/-- Every timer id mentioned by a state is below its counter (true of every
reachable state; hypotheses of the scheduler theorems). -/
def idsBelow (s : SchedState) : Prop :=
  (∀ t ∈ s.dead, t < s.nextId) ∧ (∀ e ∈ s.timers, e.2 < s.nextId)

instance (s : SchedState) : Decidable (idsBelow s) := by
  unfold idsBelow; infer_instance

/-!
The document blob store. File contents are byte lists; the filesystem is a
partial map from segment-list paths to contents.
-/

/-- Raw file contents (a `Buffer`). -/
def Bytes : Type := List Nat
deriving instance DecidableEq, Repr for Bytes

/-- A filesystem of raw blobs. -/
def BlobFS : Type := List String → Option Bytes

/-- Write (or overwrite) one blob. -/
def blobSet (fs : BlobFS) (p : List String) (v : Bytes) : BlobFS :=
  fun q => if q = p then some v else fs q

/-- `StoredDocument` from `shared/contracts.ts`. -/
structure StoredDocument where
  id : String
  originalFileName : String
  storedFileName : String
  kind : DocumentKind
  sizeBytes : Nat
  addedAt : Nat
deriving DecidableEq, Repr

/-- The stored file name built by `copyDocument`:
`` `${sanitizeFileName(documentId)}-${sanitizeFileName(originalFileName)}` ``. -/
def storedFileNameOf (documentId originalFileName : String) : String :=
  sanitizeFileName documentId ++ "-" ++ sanitizeFileName originalFileName

/-- `copyDocument(targetId, documentId, originalFileName, fileData)`: route by
the `thread-` id prefix, write the blob under the stored name, and return the
`StoredDocument` record (`addedAt` is `Date.now()`, passed in as `now`). -/
def copyDocument (fs : BlobFS) (targetId documentId originalFileName : String)
    (fileData : Bytes) (now : Nat) : BlobFS × StoredDocument :=
  let isThread := targetId.startsWith "thread-"
  let docsDir := resolveDocsDir targetId isThread
  let stored := storedFileNameOf documentId originalFileName
  (blobSet fs (docsDir ++ [stored]) fileData,
    { id := documentId
      originalFileName := originalFileName
      storedFileName := stored
      kind := inferDocumentKind originalFileName
      sizeBytes := fileData.length
      addedAt := now })

/-- `readDocument(targetId, storedFileName)`: route by the `thread-` prefix,
read the blob under `sanitizeFileName(storedFileName)` (`none` = the
not-found failure of `fs.readFile`), recover the original name by cutting the
input at the first `'-'` of the sanitized name, and re-infer the kind. -/
def readDocument (fs : BlobFS) (targetId storedFileName : String) :
    Option (Bytes × String × DocumentKind) :=
  let isThread := targetId.startsWith "thread-"
  let docsDir := resolveDocsDir targetId isThread
  let safeName := sanitizeFileName storedFileName
  match fs (docsDir ++ [safeName]) with
  | none => none
  | some fileData =>
    let originalFileName :=
      match safeName.data.findIdx? (fun c => c == '-') with
      | some i => (storedFileName.data.drop (i + 1)).asString
      | none => storedFileName
    some (fileData, originalFileName, inferDocumentKind originalFileName)

/-!
The project metadata store. JSON project files are modelled in parsed form:
a record whose optional fields stand for JSON keys that may be absent
(`none` = key absent). `ProjVal.corrupt` stands for a file whose content does
not parse as JSON.
-/

/-- A chat message role. -/
inductive Role where
  | user
  | assistant
  | system
deriving DecidableEq, Repr

/-- `ChatMessageData` from `shared/contracts.ts` (`meta` is optional). -/
structure ChatMsg where
  id : String
  role : Role
  content : String
  createdAt : Nat
  meta : Option String
deriving DecidableEq, Repr

/-- A thread/session record as found in a project JSON file. `documents` and
`activeDocumentId` are optional keys: pre-upgrade session records have
neither; `activeDocumentId = some none` is the JSON value `null`. -/
structure ThreadRec where
  id : String
  title : String
  messages : List ChatMsg
  documents : Option (List StoredDocument)
  activeDocumentId : Option (Option String)
  lastUpdated : Nat
deriving DecidableEq, Repr

/-- A parsed project JSON file. `sessions` is the pre-upgrade key, `threads`
the current one. -/
structure ProjFile where
  id : String
  name : String
  documents : Option (List StoredDocument)
  sessions : Option (List ThreadRec)
  threads : Option (List ThreadRec)
  createdAt : Nat
  updatedAt : Nat
deriving DecidableEq, Repr

/-- Content of a path holding a project file: parsed JSON or unparsable. -/
inductive ProjVal where
  | corrupt
  | parsed (data : ProjFile)
deriving DecidableEq, Repr

/-- A filesystem of project files. -/
def ProjFS : Type := List String → Option ProjVal

/-- Write (or overwrite) one project file. -/
def projSet (fs : ProjFS) (p : List String) (v : ProjVal) : ProjFS :=
  fun q => if q = p then some v else fs q

/-- The schema upgrade applied by `loadProject` when `sessions` is present and
`threads` is not: `data.threads = sessions.map(s => ({ ...s, documents: [] }));
delete data.sessions` (the spread keeps every other key of `s` unchanged). -/
def upgradeProjFile (data : ProjFile) (ss : List ThreadRec) : ProjFile :=
  { data with
    threads := some (ss.map (fun s => { s with documents := some [] }))
    sessions := none }

/-- `loadProject(projectId)`: read and parse the file, upgrade the old schema
(persisting the upgraded JSON with a direct `atomicWrite` before returning),
and return the data. The whole body sits in `try { ... } catch { return null }`,
so a missing file, a parse failure, or a failure of the upgrade write itself
(`wfail` says which paths fail to write) all yield `null`. The second
component lists the writes performed. -/
def loadProject (fs : ProjFS) (wfail : List String → Bool) (projectId : String) :
    Option ProjFile × List (List String × ProjFile) :=
  match fs (projectJsonPath projectId) with
  | none => (none, [])
  | some .corrupt => (none, [])
  | some (.parsed data) =>
    match data.sessions, data.threads with
    | some ss, none =>
      let up := upgradeProjFile data ss
      if wfail (projectJsonPath projectId) then (none, [])
      else (some up, [(projectJsonPath projectId, up)])
    | some _, some _ => (some data, [])
    | none, _ => (some data, [])

/-!
The application state store.
-/

/-- The `shortcuts` object of the settings JSON; `newSession` is the old key,
`newThread` the current one. -/
structure ShortcutsRec where
  sendMessage : Option String
  newThread : Option String
  newSession : Option String
deriving DecidableEq, Repr

/-- The `settings` object of the app-state JSON. -/
structure SettingsRec where
  model : Option String
  reasoningEffort : Option String
  shortcuts : Option ShortcutsRec
deriving DecidableEq, Repr

/-- A `projectIndex` entry: `{id, name, updatedAt}`. -/
structure IndexEntry where
  id : String
  name : String
  updatedAt : Nat
deriving DecidableEq, Repr

/-- A parsed app-state JSON file; `globalThreads` and `activeSessionId` are
the pre-rename keys of `threads` and `activeThreadId`. -/
structure AppFile where
  projectIndex : Option (List IndexEntry)
  threads : Option (List ThreadRec)
  globalThreads : Option (List ThreadRec)
  activeProjectId : Option (Option String)
  activeThreadId : Option String
  activeSessionId : Option String
  settings : Option SettingsRec
deriving DecidableEq, Repr

/-- Content of the app-state path: parsed JSON or unparsable. -/
inductive AppVal where
  | corrupt
  | parsed (data : AppFile)
deriving DecidableEq, Repr

/-- The field renames `loadAppState` applies to the parsed object:
`globalThreads` → `threads`, `activeSessionId` → `activeThreadId`, and
`settings.shortcuts.newSession` → `newThread`, each only when the old key is
present and the new one is absent. -/
def renameAppFields (data : AppFile) : AppFile :=
  let d1 :=
    if data.globalThreads.isSome && !data.threads.isSome then
      { data with threads := data.globalThreads, globalThreads := none }
    else data
  let d2 :=
    if d1.activeSessionId.isSome && !d1.activeThreadId.isSome then
      { d1 with activeThreadId := d1.activeSessionId, activeSessionId := none }
    else d1
  match d2.settings with
  | none => d2
  | some st =>
    match st.shortcuts with
    | none => d2
    | some sc =>
      if sc.newSession.isSome && !sc.newThread.isSome then
        { d2 with
          settings := some
            { st with
              shortcuts := some
                { sc with newThread := sc.newSession, newSession := none } } }
      else d2

/-- `loadAppState()`: read and parse `app-state.json`, apply the renames and
return the data; the `try/catch` turns a missing or unparsable file into
`null`. -/
def loadAppState (content : Option AppVal) : Option AppFile :=
  match content with
  | none => none
  | some .corrupt => none
  | some (.parsed data) => some (renameAppFields data)

/-!
Typed entities (from `shared/contracts.ts`) and the legacy migration.
-/

/-- `KeyboardShortcuts`. -/
structure KeyboardShortcuts where
  sendMessage : String
  newThread : String
deriving DecidableEq, Repr

/-- `AppSettings` (the `ReasoningEffort` union is kept as its string value). -/
structure AppSettings where
  model : String
  reasoningEffort : String
  shortcuts : KeyboardShortcuts
deriving DecidableEq, Repr

/-- `ThreadMetadata` (the typed record: `activeDocumentId : string | null`). -/
structure ThreadMetadata where
  id : String
  title : String
  messages : List ChatMsg
  documents : List StoredDocument
  activeDocumentId : Option String
  lastUpdated : Nat
deriving DecidableEq, Repr

/-- `ProjectMetadata`. -/
structure ProjectMetadata where
  id : String
  name : String
  documents : List StoredDocument
  threads : List ThreadMetadata
  createdAt : Nat
  updatedAt : Nat
deriving DecidableEq, Repr

/-- `AppState`. -/
structure AppState where
  projectIndex : List IndexEntry
  threads : List ThreadMetadata
  activeProjectId : Option String
  activeThreadId : String
  settings : AppSettings
deriving DecidableEq, Repr

/-- A session of the legacy persisted format. -/
structure LegacySession where
  id : String
  title : String
  messages : List ChatMsg
  lastUpdated : Nat
deriving DecidableEq, Repr

/-- A project of the legacy persisted format. -/
structure LegacyProject where
  id : String
  name : String
  sessions : List LegacySession
  createdAt : Nat
deriving DecidableEq, Repr

/-- The parsed legacy blob handed to `migrateLegacyState` (all top-level
fields are optional in its TypeScript cast). -/
structure LegacyState where
  projects : Option (List LegacyProject)
  activeProjectId : Option String
  activeSessionId : Option String
  settings : Option AppSettings
deriving DecidableEq, Repr

/-- The default settings synthesized by `migrateLegacyState`. -/
def migrateDefaultSettings : AppSettings :=
  { model := "gpt-5-mini"
    reasoningEffort := "high"
    shortcuts := { sendMessage := "Meta+Enter", newThread := "Meta+Shift+N" } }

/-- The `ThreadMetadata` built for one legacy session: id, title and messages
carried over verbatim, empty documents, null active document. -/
def migrateSession (s : LegacySession) : ThreadMetadata :=
  { id := s.id
    title := s.title
    messages := s.messages.map (fun m =>
      { id := m.id, role := m.role, content := m.content,
        createdAt := m.createdAt, meta := m.meta })
    documents := []
    activeDocumentId := none
    lastUpdated := s.lastUpdated }

/-- The `ProjectMetadata` built for one legacy project (`now` is the single
`Date.now()` reading taken at the start of the migration). -/
def migrateProject (p : LegacyProject) (now : Nat) : ProjectMetadata :=
  { id := p.id
    name := p.name
    documents := []
    threads := p.sessions.map migrateSession
    createdAt := p.createdAt
    updatedAt := now }

/-- Everything `migrateLegacyState` produces: the returned `AppState`, the
project files it writes (path and content, in order), and the document
directories it creates. The `AppState` itself is additionally persisted at
`appStatePath` as the final write. -/
structure MigrateResult where
  appState : AppState
  projWrites : List (List String × ProjectMetadata)
  dirsMade : List (List String)
deriving DecidableEq, Repr

/-- `migrateLegacyState(legacyJson)` after the initial `JSON.parse` (a parse
failure simply propagates, so the function proper starts from the parsed
`legacy` value; `now` is the `Date.now()` reading). -/
def migrateLegacyState (legacy : LegacyState) (now : Nat) : MigrateResult :=
  let projects := legacy.projects.getD []
  { appState :=
      { projectIndex := projects.map (fun p => ⟨p.id, p.name, now⟩)
        threads := []
        activeProjectId :=
          legacy.activeProjectId.orElse (fun _ => projects.head?.map (fun p => p.id))
        activeThreadId :=
          (legacy.activeSessionId.orElse (fun _ =>
            projects.head?.bind (fun p => p.sessions.head?.map (fun s => s.id)))).getD ""
        settings := legacy.settings.getD migrateDefaultSettings }
    projWrites := projects.map (fun p => (projectJsonPath p.id, migrateProject p now))
    dirsMade := projects.map (fun p => projectDocsDir p.id) }

/-- Erase the `updatedAt` stamps a `MigrateResult` took from the clock. -/
def stripClock (r : MigrateResult) : MigrateResult :=
  { appState :=
      { r.appState with
        projectIndex := r.appState.projectIndex.map (fun e => { e with updatedAt := 0 }) }
    projWrites := r.projWrites.map (fun w => (w.1, { w.2 with updatedAt := 0 }))
    dirsMade := r.dirsMade }

/-!
Error view of `flush`: the payloads gathered from the two maps, and whether
the `Promise.all` of their atomic writes resolves or rejects.
-/

/-- The payloads `flush` gathers (one lookup in `pendingWrites` per entry of
`debounceTimers`). -/
def flushGathered (s : SchedState) : List Payload :=
  s.timers.filterMap (fun e => alGet s.pending e.1)

/-- `flush()` as seen by its caller: every gathered payload is written, and
the awaited `Promise.all` rejects — propagating the failure, there is no
`catch` — as soon as any single write fails (`wfail` says which paths fail). -/
def flushE (s : SchedState) (wfail : List String → Bool) : Except Unit Unit :=
  if (flushGathered s).all (fun p => !wfail p.filePath) then .ok () else .error ()

/-!
Remaining definitions: derived notions and the concrete inputs used by
witnesses and counterexamples.
-/

/-- The payload of the last of the calls `p, ps`. -/
def lastPayload (p : Payload) (ps : List Payload) : Payload :=
  ps.foldl (fun _ q => q) p

/-- The two scheduler maps are indexed by the same keys. -/
def coKeys (s : SchedState) : Prop :=
  s.timers.map Prod.fst = s.pending.map Prod.fst

instance (s : SchedState) : Decidable (coKeys s) := by
  unfold coKeys; infer_instance

/-- A pre-upgrade session record: no `documents` key, no `activeDocumentId`
key. -/
def oldSession : ThreadRec := ⟨"s1", "T", [], none, none, 5⟩

/-- A project file in the pre-upgrade schema: a `sessions` list and no
`threads` key. -/
def oldProjFile : ProjFile := ⟨"p1", "N", none, some [oldSession], none, 1, 2⟩

/-- A filesystem holding `oldProjFile` at project `p1`'s path. -/
def oldProjFS : ProjFS :=
  projSet (fun _ => none) (projectJsonPath "p1") (.parsed oldProjFile)

/-- What `loadProject` persists and returns for `oldProjFile`. -/
def upgradedProjFile : ProjFile := upgradeProjFile oldProjFile [oldSession]

/-- The message of the migration scenario of the spec. -/
def legacyMessage : ChatMsg := ⟨"m1", .user, "hi", 1000, none⟩

/-- The legacy blob of the migration scenario of the spec: one project `p1`
with one session `s1` holding `legacyMessage`. -/
def legacySoccer : LegacyState :=
  { projects := some [⟨"p1", "Soccer", [⟨"s1", "Goals", [legacyMessage], 1000⟩], 900⟩]
    activeProjectId := some "p1"
    activeSessionId := some "s1"
    settings := none }

/-!
Association-list lemmas (JS `Map` model).
-/

theorem alGet_mem {α : Type} :
    ∀ (l : List (String × α)) (k : String) (v : α), alGet l k = some v → (k, v) ∈ l := by
  intro l
  induction l with
  | nil => intro k v h; simp [alGet] at h
  | cons e rest ih =>
    intro k v h
    obtain ⟨k', v'⟩ := e
    by_cases hk : k' = k
    · subst hk
      simp [alGet] at h
      subst h
      exact List.mem_cons_self _ _
    · simp [alGet, hk] at h
      exact List.mem_cons_of_mem _ (ih k v h)

theorem alGet_alSet_self {α : Type} :
    ∀ (l : List (String × α)) (k : String) (v : α), alGet (alSet l k v) k = some v := by
  intro l
  induction l with
  | nil => intro k v; simp [alGet, alSet]
  | cons e rest ih =>
    intro k v
    obtain ⟨k', v'⟩ := e
    by_cases hk : k' = k
    · subst hk; simp [alGet, alSet]
    · simp [alGet, alSet, hk]
      exact ih k v

theorem alSet_mem {α : Type} :
    ∀ (l : List (String × α)) (k : String) (v : α) (e : String × α),
      e ∈ alSet l k v → e = (k, v) ∨ e ∈ l := by
  intro l
  induction l with
  | nil => intro k v e h; simp [alSet] at h; exact Or.inl h
  | cons hd rest ih =>
    intro k v e h
    obtain ⟨k', v'⟩ := hd
    by_cases hk : k' = k
    · subst hk
      simp [alSet] at h
      rcases h with h | h
      · exact Or.inl h
      · exact Or.inr (List.mem_cons_of_mem _ h)
    · simp [alSet, hk] at h
      rcases h with h | h
      · exact Or.inr (by simp [h])
      · rcases ih k v e h with h' | h'
        · exact Or.inl h'
        · exact Or.inr (List.mem_cons_of_mem _ h')

theorem alSet_keys {α : Type} :
    ∀ (l : List (String × α)) (k : String) (v : α),
      (alSet l k v).map Prod.fst =
        if k ∈ l.map Prod.fst then l.map Prod.fst else l.map Prod.fst ++ [k] := by
  intro l
  induction l with
  | nil => intro k v; simp [alSet]
  | cons hd rest ih =>
    intro k v
    obtain ⟨k', v'⟩ := hd
    by_cases hk : k' = k
    · subst hk; simp [alSet]
    · have hk' : ¬k = k' := fun h => hk h.symm
      simp [alSet, hk, hk', ih k v]
      by_cases hmem : k ∈ rest.map Prod.fst <;> simp [hmem, hk']

theorem alErase_keys {α : Type} (l : List (String × α)) (k : String) :
    (alErase l k).map Prod.fst = (l.map Prod.fst).filter (fun a => a ≠ k) := by
  induction l with
  | nil => simp [alErase]
  | cons hd rest ih =>
    by_cases hk : hd.1 = k
    · simp [alErase, hk] at ih ⊢; exact ih
    · simp [alErase, hk] at ih ⊢; exact ih

theorem keys_alSet_congr {α β : Type} (l₁ : List (String × α)) (l₂ : List (String × β))
    (k : String) (v : α) (w : β) (h : l₁.map Prod.fst = l₂.map Prod.fst) :
    (alSet l₁ k v).map Prod.fst = (alSet l₂ k w).map Prod.fst := by
  rw [alSet_keys, alSet_keys, h]

theorem keys_alErase_congr {α β : Type} (l₁ : List (String × α)) (l₂ : List (String × β))
    (k : String) (h : l₁.map Prod.fst = l₂.map Prod.fst) :
    (alErase l₁ k).map Prod.fst = (alErase l₂ k).map Prod.fst := by
  rw [alErase_keys, alErase_keys, h]

theorem filterMap_congr_mem {α β : Type} :
    ∀ (l : List α) (f g : α → Option β), (∀ a ∈ l, f a = g a) → l.filterMap f = l.filterMap g := by
  intro l
  induction l with
  | nil => intro f g _; rfl
  | cons hd rest ih =>
    intro f g h
    have hhd := h hd (List.mem_cons_self _ _)
    have hrest := ih f g (fun a ha => h a (List.mem_cons_of_mem _ ha))
    simp [List.filterMap_cons, hhd, hrest]

theorem filterMap_alGet {α β : Type} :
    ∀ (l₁ : List (String × α)) (l₂ : List (String × β)),
      l₁.map Prod.fst = l₂.map Prod.fst → (l₂.map Prod.fst).Nodup →
      l₁.filterMap (fun e => alGet l₂ e.1) = l₂.map (fun e => e.2) := by
  intro l₁
  induction l₁ with
  | nil =>
    intro l₂ h _
    have : l₂ = [] := by
      cases l₂ with
      | nil => rfl
      | cons hd t => simp at h
    subst this; rfl
  | cons hd t₁ ih =>
    intro l₂ h hnd
    cases l₂ with
    | nil => simp at h
    | cons hd₂ t₂ =>
      obtain ⟨k, a⟩ := hd
      obtain ⟨k₂, b⟩ := hd₂
      simp at h
      obtain ⟨hkk, htail⟩ := h
      subst hkk
      simp at hnd
      obtain ⟨hknot, hndt⟩ := hnd
      have hhead : alGet ((k, b) :: t₂) k = some b := by simp [alGet]
      have hrest : t₁.filterMap (fun e => alGet ((k, b) :: t₂) e.1) =
          t₁.filterMap (fun e => alGet t₂ e.1) := by
        apply filterMap_congr_mem
        intro e he
        have : e.1 ∈ t₂.map Prod.fst := by
          rw [← htail]; exact List.mem_map_of_mem _ he
        have hne : ¬k = e.1 := by
          intro hcontra
          rw [← hcontra] at this
          obtain ⟨⟨k3, x⟩, hx, hfst⟩ := List.mem_map.mp this
          exact hknot x (hfst ▸ hx)
        simp [alGet, hne]
      simp [List.filterMap_cons, hhead, hrest, ih t₂ htail hndt]

theorem idsBelow_debouncedWrite (s : SchedState) (k : String) (p : Payload)
    (h : idsBelow s) : idsBelow (debouncedWrite s k p) := by
  obtain ⟨hdead, htimers⟩ := h
  constructor
  · intro t ht
    show t < s.nextId + 1
    have hd : (debouncedWrite s k p).dead =
        match alGet s.timers k with
        | some t0 => t0 :: s.dead
        | none => s.dead := rfl
    rw [hd] at ht
    cases hg : alGet s.timers k with
    | none =>
      rw [hg] at ht
      exact Nat.lt_succ_of_lt (hdead t ht)
    | some t0 =>
      rw [hg] at ht
      rcases List.mem_cons.mp ht with h1 | h1
      · subst h1
        exact Nat.lt_succ_of_lt (htimers _ (alGet_mem _ _ _ hg))
      · exact Nat.lt_succ_of_lt (hdead t h1)
  · intro e he
    show e.2 < s.nextId + 1
    rcases alSet_mem _ _ _ _ he with h1 | h1
    · rw [h1]; exact Nat.lt_succ_self _
    · exact Nat.lt_succ_of_lt (htimers e h1)

/-- Complete description of a burst of `debouncedWrite` calls on one key `k`
(payloads `p :: ps`, in order) starting from any state whose timer ids are
consistent: no write happens, the key's armed timer is the one created by the
last call and its closure captured the last payload, every timer armed by an
earlier call of the burst (and any timer the key had before) is cancelled,
and cancelled ids persist. -/
theorem scheduleRun_spec (k : String) :
    ∀ (ps : List Payload) (s : SchedState) (p : Payload),
      idsBelow s →
      (scheduleRun s k (p :: ps)).writes = s.writes ∧
      (scheduleRun s k (p :: ps)).nextId = s.nextId + ps.length + 1 ∧
      alGet (scheduleRun s k (p :: ps)).timers k = some (s.nextId + ps.length) ∧
      metaGet (scheduleRun s k (p :: ps)).meta (s.nextId + ps.length) =
        some (k, lastPayload p ps) ∧
      (∀ t ∈ (scheduleRun s k (p :: ps)).dead, t < s.nextId + ps.length) ∧
      (∀ j, j < ps.length → s.nextId + j ∈ (scheduleRun s k (p :: ps)).dead) ∧
      (∀ t, alGet s.timers k = some t → t ∈ (scheduleRun s k (p :: ps)).dead) ∧
      (∀ t ∈ s.dead, t ∈ (scheduleRun s k (p :: ps)).dead) := by
  intro ps
  induction ps with
  | nil =>
    intro s p h
    obtain ⟨hdead, htimers⟩ := h
    have hrun : scheduleRun s k [p] = debouncedWrite s k p := rfl
    rw [hrun]
    refine ⟨rfl, rfl, alGet_alSet_self _ _ _, by simp [metaGet, debouncedWrite, lastPayload],
      ?_, ?_, ?_, ?_⟩
    · intro t ht
      show t < s.nextId + 0
      have hd : (debouncedWrite s k p).dead =
          match alGet s.timers k with
          | some t0 => t0 :: s.dead
          | none => s.dead := rfl
      rw [hd] at ht
      cases hg : alGet s.timers k with
      | none => rw [hg] at ht; exact hdead t ht
      | some t0 =>
        rw [hg] at ht
        rcases List.mem_cons.mp ht with h1 | h1
        · subst h1; exact htimers _ (alGet_mem _ _ _ hg)
        · exact hdead t h1
    · intro j hj
      exact absurd hj (Nat.not_lt_zero j)
    · intro t hg
      show t ∈ (match alGet s.timers k with
        | some t0 => t0 :: s.dead
        | none => s.dead)
      rw [hg]
      exact List.mem_cons_self _ _
    · intro t ht
      show t ∈ (match alGet s.timers k with
        | some t0 => t0 :: s.dead
        | none => s.dead)
      cases hg : alGet s.timers k with
      | none => exact ht
      | some t0 => exact List.mem_cons_of_mem _ ht
  | cons q qs ih =>
    intro s p h
    have h1 : idsBelow (debouncedWrite s k p) := idsBelow_debouncedWrite s k p h
    have hrun : scheduleRun s k (p :: q :: qs) =
        scheduleRun (debouncedWrite s k p) k (q :: qs) := rfl
    obtain ⟨w, n, g, m, d5, d6, d7, d8⟩ := ih (debouncedWrite s k p) q h1
    have e1 : (debouncedWrite s k p).nextId = s.nextId + 1 := rfl
    have hidx : s.nextId + (q :: qs).length = (debouncedWrite s k p).nextId + qs.length := by
      rw [List.length_cons, e1]; omega
    rw [hrun]
    refine ⟨w, ?_, ?_, ?_, ?_, ?_, ?_, ?_⟩
    · rw [n, List.length_cons, e1]; omega
    · rw [hidx]; exact g
    · rw [hidx]; exact m
    · intro t ht
      have := d5 t ht
      rw [List.length_cons]
      omega
    · intro j hj
      rw [List.length_cons] at hj
      cases j with
      | zero =>
        have hlive : alGet (debouncedWrite s k p).timers k = some s.nextId :=
          alGet_alSet_self _ _ _
        have := d7 s.nextId hlive
        simpa using this
      | succ j' =>
        have hj' : j' < qs.length := by omega
        have := d6 j' hj'
        have heq : s.nextId + (j' + 1) = (debouncedWrite s k p).nextId + j' := by
          rw [e1]; omega
        rw [heq]
        exact this
    · intro t hg
      have hmem : t ∈ (debouncedWrite s k p).dead := by
        show t ∈ (match alGet s.timers k with
          | some t0 => t0 :: s.dead
          | none => s.dead)
        rw [hg]
        exact List.mem_cons_self _ _
      exact d8 t hmem
    · intro t ht
      have hmem : t ∈ (debouncedWrite s k p).dead := by
        show t ∈ (match alGet s.timers k with
          | some t0 => t0 :: s.dead
          | none => s.dead)
        cases hg : alGet s.timers k with
        | none => exact ht
        | some t0 => exact List.mem_cons_of_mem _ ht
      exact d8 t hmem

/-- C1: for every burst of `debouncedWrite` calls on one key within the
debounce window (no timer fires in between), the calls themselves write
nothing; the key's armed timer after the burst is the last call's, and firing
it performs exactly one physical write, whose content is the last call's
payload; firing it a second time changes nothing, and the timers armed by the
earlier calls of the burst are cancelled, so the earlier payloads are never
written. -/
theorem debouncedWrite_last_write_wins (s0 : SchedState) (k : String) (p : Payload)
    (ps : List Payload) (h : idsBelow s0) :
    (scheduleRun s0 k (p :: ps)).writes = s0.writes ∧
    alGet (scheduleRun s0 k (p :: ps)).timers k = some (s0.nextId + ps.length) ∧
    (timerFire (scheduleRun s0 k (p :: ps)) (s0.nextId + ps.length)).writes =
      s0.writes ++ [lastPayload p ps] ∧
    timerFire (timerFire (scheduleRun s0 k (p :: ps)) (s0.nextId + ps.length))
        (s0.nextId + ps.length) =
      timerFire (scheduleRun s0 k (p :: ps)) (s0.nextId + ps.length) ∧
    (∀ j, j < ps.length →
      timerFire (scheduleRun s0 k (p :: ps)) (s0.nextId + j) = scheduleRun s0 k (p :: ps)) := by
  obtain ⟨w, n, g, m, d5, d6, d7, d8⟩ := scheduleRun_spec k ps s0 p h
  have hnotdead : (s0.nextId + ps.length) ∉ (scheduleRun s0 k (p :: ps)).dead :=
    fun hc => absurd (d5 _ hc) (lt_irrefl _)
  have hfire : timerFire (scheduleRun s0 k (p :: ps)) (s0.nextId + ps.length) =
      { timers := alErase (scheduleRun s0 k (p :: ps)).timers k
        pending := alErase (scheduleRun s0 k (p :: ps)).pending k
        meta := (scheduleRun s0 k (p :: ps)).meta
        dead := (s0.nextId + ps.length) :: (scheduleRun s0 k (p :: ps)).dead
        nextId := (scheduleRun s0 k (p :: ps)).nextId
        writes := (scheduleRun s0 k (p :: ps)).writes ++ [lastPayload p ps] } := by
    unfold timerFire
    rw [if_neg hnotdead, m]
  refine ⟨w, g, ?_, ?_, ?_⟩
  · rw [hfire]
    show (scheduleRun s0 k (p :: ps)).writes ++ [lastPayload p ps] = _
    rw [w]
  · rw [hfire]
    show timerFire _ _ = _
    unfold timerFire
    rw [if_pos (List.mem_cons_self _ _)]
  · intro j hj
    unfold timerFire
    rw [if_pos (d6 j hj)]

/-- Witness for C1 at a concrete two-call burst from the initial state. -/
theorem debouncedWrite_last_write_wins_witness :
    idsBelow schedInit ∧
    ((scheduleRun schedInit "k" [⟨["f"], "a"⟩, ⟨["f"], "b"⟩]).writes = schedInit.writes ∧
     alGet (scheduleRun schedInit "k" [⟨["f"], "a"⟩, ⟨["f"], "b"⟩]).timers "k" =
       some (schedInit.nextId + [(⟨["f"], "b"⟩ : Payload)].length) ∧
     (timerFire (scheduleRun schedInit "k" [⟨["f"], "a"⟩, ⟨["f"], "b"⟩])
         (schedInit.nextId + [(⟨["f"], "b"⟩ : Payload)].length)).writes =
       schedInit.writes ++ [lastPayload ⟨["f"], "a"⟩ [⟨["f"], "b"⟩]] ∧
     timerFire (timerFire (scheduleRun schedInit "k" [⟨["f"], "a"⟩, ⟨["f"], "b"⟩])
           (schedInit.nextId + [(⟨["f"], "b"⟩ : Payload)].length))
         (schedInit.nextId + [(⟨["f"], "b"⟩ : Payload)].length) =
       timerFire (scheduleRun schedInit "k" [⟨["f"], "a"⟩, ⟨["f"], "b"⟩])
         (schedInit.nextId + [(⟨["f"], "b"⟩ : Payload)].length) ∧
     (∀ j, j < [(⟨["f"], "b"⟩ : Payload)].length →
       timerFire (scheduleRun schedInit "k" [⟨["f"], "a"⟩, ⟨["f"], "b"⟩])
           (schedInit.nextId + j) =
         scheduleRun schedInit "k" [⟨["f"], "a"⟩, ⟨["f"], "b"⟩])) :=
  ⟨by decide,
    debouncedWrite_last_write_wins schedInit "k" ⟨["f"], "a"⟩ [⟨["f"], "b"⟩] (by decide)⟩

/-- C2: when the two scheduler maps are co-indexed with distinct keys (as in
every reachable state), `flush` leaves both maps empty, its trace of physical
writes extends by exactly one write per pending key — that key's latest
payload — and every timer it cancelled has become inert: firing it afterwards
changes nothing, so no duplicate write can happen. -/
theorem flush_writes_all_pending (s : SchedState)
    (hk : s.timers.map Prod.fst = s.pending.map Prod.fst)
    (hnd : (s.pending.map Prod.fst).Nodup) :
    (flushSched s).timers = [] ∧
    (flushSched s).pending = [] ∧
    (flushSched s).writes = s.writes ++ s.pending.map (fun e => e.2) ∧
    (∀ e ∈ s.timers, timerFire (flushSched s) e.2 = flushSched s) := by
  refine ⟨rfl, rfl, ?_, ?_⟩
  · show s.writes ++ s.timers.filterMap (fun e => alGet s.pending e.1) = _
    rw [filterMap_alGet s.timers s.pending hk hnd]
  · intro e he
    have hdead : e.2 ∈ (flushSched s).dead := by
      show e.2 ∈ s.timers.map (fun e => e.2) ++ s.dead
      exact List.mem_append_left _ (List.mem_map_of_mem _ he)
    unfold timerFire
    rw [if_pos hdead]

/-- Witness for C2 at a concrete state with two pending keys. -/
theorem flush_writes_all_pending_witness :
    ((debouncedWrite (debouncedWrite schedInit "a" ⟨["fa"], "da"⟩) "b"
        ⟨["fb"], "db"⟩).timers.map Prod.fst =
      (debouncedWrite (debouncedWrite schedInit "a" ⟨["fa"], "da"⟩) "b"
        ⟨["fb"], "db"⟩).pending.map Prod.fst) ∧
    ((flushSched (debouncedWrite (debouncedWrite schedInit "a" ⟨["fa"], "da"⟩) "b"
        ⟨["fb"], "db"⟩)).timers = [] ∧
     (flushSched (debouncedWrite (debouncedWrite schedInit "a" ⟨["fa"], "da"⟩) "b"
        ⟨["fb"], "db"⟩)).pending = [] ∧
     (flushSched (debouncedWrite (debouncedWrite schedInit "a" ⟨["fa"], "da"⟩) "b"
        ⟨["fb"], "db"⟩)).writes =
       (debouncedWrite (debouncedWrite schedInit "a" ⟨["fa"], "da"⟩) "b"
         ⟨["fb"], "db"⟩).writes ++
       (debouncedWrite (debouncedWrite schedInit "a" ⟨["fa"], "da"⟩) "b"
         ⟨["fb"], "db"⟩).pending.map (fun e => e.2) ∧
     (∀ e ∈ (debouncedWrite (debouncedWrite schedInit "a" ⟨["fa"], "da"⟩) "b"
        ⟨["fb"], "db"⟩).timers,
       timerFire (flushSched (debouncedWrite (debouncedWrite schedInit "a"
           ⟨["fa"], "da"⟩) "b" ⟨["fb"], "db"⟩)) e.2 =
         flushSched (debouncedWrite (debouncedWrite schedInit "a" ⟨["fa"], "da"⟩) "b"
           ⟨["fb"], "db"⟩))) :=
  ⟨by decide,
    flush_writes_all_pending
      (debouncedWrite (debouncedWrite schedInit "a" ⟨["fa"], "da"⟩) "b" ⟨["fb"], "db"⟩)
      (by decide) (by decide)⟩

/-- C10: the key set of the timer map equals the key set of the pending map
in the initial state and after every scheduler operation — a `debouncedWrite`
call, a timer firing, or a `flush` — so no key is ever left with a payload
but no timer, or a timer but no payload. -/
theorem sched_maps_coindexed :
    coKeys schedInit ∧
    ∀ (s : SchedState) (op : SchedOp), coKeys s → coKeys (schedStep s op) := by
  refine ⟨rfl, ?_⟩
  intro s op h
  cases op with
  | write key p =>
    show (alSet s.timers key s.nextId).map Prod.fst = (alSet s.pending key p).map Prod.fst
    exact keys_alSet_congr _ _ key s.nextId p h
  | fire t =>
    show coKeys (timerFire s t)
    unfold timerFire
    by_cases hd : t ∈ s.dead
    · rw [if_pos hd]; exact h
    · rw [if_neg hd]
      cases hm : metaGet s.meta t with
      | none => exact h
      | some e =>
        obtain ⟨key, p⟩ := e
        show (alErase s.timers key).map Prod.fst = (alErase s.pending key).map Prod.fst
        exact keys_alErase_congr _ _ key h
  | flushAll => rfl

/-- Witness for C10 at a concrete step. -/
theorem sched_maps_coindexed_witness :
    coKeys schedInit ∧ coKeys (schedStep schedInit (SchedOp.write "k" ⟨["f"], "d"⟩)) :=
  ⟨rfl, sched_maps_coindexed.2 schedInit (SchedOp.write "k" ⟨["f"], "d"⟩) rfl⟩

/-- C3 (evaluation of the code on the claim's input): storing a document with
id `doc-1` and original name `report.pdf` and reading it back under the
returned stored name yields the identical bytes and kind `pdf`, but the
recovered original name is `1-report.pdf`, not `report.pdf`: the stored name
is `doc-1-report.pdf`, and `readDocument` strips only up to the first `'-'`,
which lies inside the document id. -/
theorem copyDocument_readDocument_roundtrip (fs : BlobFS) (targetId : String)
    (bytes : Bytes) (now : Nat) :
    readDocument (copyDocument fs targetId "doc-1" "report.pdf" bytes now).1 targetId
        (copyDocument fs targetId "doc-1" "report.pdf" bytes now).2.storedFileName =
      some (bytes, "1-report.pdf", DocumentKind.pdf) := by
  have hname : storedFileNameOf "doc-1" "report.pdf" = "doc-1-report.pdf" := by decide
  have hsan : sanitizeFileName "doc-1-report.pdf" = "doc-1-report.pdf" := by decide
  have hidx : ("doc-1-report.pdf" : String).data.findIdx? (fun c => c == '-') = some 3 := by
    decide
  have hdrop : (("doc-1-report.pdf" : String).data.drop (3 + 1)).asString = "1-report.pdf" := by
    decide
  have hkind : inferDocumentKind "1-report.pdf" = DocumentKind.pdf := by decide
  simp only [copyDocument, readDocument, hname, hsan, hidx, hdrop, hkind, blobSet]
  simp

/-- C4 (evaluation of the code on a pre-upgrade file): `loadProject` maps each
session to a thread with an empty `documents` list and persists the upgraded
file synchronously; a second load of the persisted file returns the upgraded
shape unchanged with no further write. However the upgraded threads keep
`activeDocumentId` absent (`none` in the outer option), not the JSON `null`
(`some none`) the claim requires. -/
theorem loadProject_upgrade_behaviour :
    loadProject oldProjFS (fun _ => false) "p1" =
      (some upgradedProjFile, [(projectJsonPath "p1", upgradedProjFile)]) ∧
    upgradedProjFile.threads = some [{ oldSession with documents := some [] }] ∧
    (∀ t ∈ upgradedProjFile.threads.getD [],
      t.documents = some [] ∧ t.activeDocumentId = none) ∧
    loadProject (projSet oldProjFS (projectJsonPath "p1") (.parsed upgradedProjFile))
        (fun _ => false) "p1" = (some upgradedProjFile, []) := by decide

/-- C5 (evaluation of the code): when a project file needs the schema upgrade
and the synchronous upgrade write fails, `loadProject`'s catch-all converts the
failure into a `null` result with no write performed — the failure does not
propagate, contrary to the claim; `flush`, by contrast, does propagate: its
awaited `Promise.all` rejects whenever any gathered write fails. -/
theorem upgrade_write_failure_swallowed :
    (∀ (fs : ProjFS) (wfail : List String → Bool) (pid : String) (data : ProjFile)
        (ss : List ThreadRec),
        fs (projectJsonPath pid) = some (.parsed data) →
        data.sessions = some ss → data.threads = none →
        wfail (projectJsonPath pid) = true →
        loadProject fs wfail pid = (none, [])) ∧
    (∀ (s : SchedState) (wfail : List String → Bool),
        (∃ p ∈ flushGathered s, wfail p.filePath = true) →
        flushE s wfail = .error ()) := by
  constructor
  · intro fs wfail pid data ss h1 h2 h3 h4
    simp [loadProject, h1, h2, h3, h4]
  · rintro s wfail ⟨p, hp, hw⟩
    have hall : ¬((flushGathered s).all (fun q => !wfail q.filePath) = true) := by
      intro hall
      have := List.all_eq_true.mp hall p hp
      simp [hw] at this
    unfold flushE
    rw [if_neg hall]

/-- Witness for C5: the pre-upgrade file with an always-failing writer, and a
one-key scheduler state whose flush write fails. -/
theorem upgrade_write_failure_swallowed_witness :
    loadProject oldProjFS (fun _ => true) "p1" = (none, []) ∧
    flushE (debouncedWrite schedInit "a" ⟨["fa"], "da"⟩) (fun _ => true) = .error () :=
  ⟨upgrade_write_failure_swallowed.1 oldProjFS (fun _ => true) "p1" oldProjFile [oldSession]
      (by decide) (by decide) (by decide) (by decide),
   upgrade_write_failure_swallowed.2 (debouncedWrite schedInit "a" ⟨["fa"], "da"⟩)
      (fun _ => true) ⟨⟨["fa"], "da"⟩, by decide, by decide⟩⟩

/-- C6: a missing or unparsable backing file makes `loadProject` return `null`
(performing no write), and likewise `loadAppState`; the catch-all around both
bodies means no error ever reaches the caller. -/
theorem load_missing_or_corrupt_null :
    (∀ (fs : ProjFS) (wfail : List String → Bool) (pid : String),
        fs (projectJsonPath pid) = none ∨ fs (projectJsonPath pid) = some .corrupt →
        loadProject fs wfail pid = (none, [])) ∧
    (∀ c : Option AppVal, (c = none ∨ c = some .corrupt) → loadAppState c = none) := by
  constructor
  · intro fs wfail pid h
    rcases h with h | h <;> simp [loadProject, h]
  · intro c h
    rcases h with h | h <;> simp [loadAppState, h]

/-- Witness for C6: an empty filesystem and a corrupt app-state file. -/
theorem load_missing_or_corrupt_null_witness :
    loadProject (fun _ => none) (fun _ => false) "p" = (none, []) ∧
    loadAppState (some .corrupt) = none :=
  ⟨load_missing_or_corrupt_null.1 (fun _ => none) (fun _ => false) "p" (Or.inl rfl),
   load_missing_or_corrupt_null.2 (some .corrupt) (Or.inr rfl)⟩

/-- Counterexample to C7 as stated: two runs of the migration on the same
legacy input at different `Date.now()` readings produce different results
(the `updatedAt` stamps differ). -/
theorem migrate_clock_counterexample :
    migrateLegacyState legacySoccer 0 ≠ migrateLegacyState legacySoccer 1 := by decide

/-- C7 (amended): `migrateLegacyState` is deterministic given the legacy
input together with the wall-clock reading taken at its start; runs at
different clock readings agree on everything except the `updatedAt` stamps
taken from the clock. -/
theorem migrate_deterministic_up_to_clock (legacy : LegacyState) (n1 n2 : Nat) :
    stripClock (migrateLegacyState legacy n1) = stripClock (migrateLegacyState legacy n2) := by
  simp [stripClock, migrateLegacyState, migrateProject, List.map_map, Function.comp]

/-- C8: on the spec's migration scenario, `migrateLegacyState` produces a
`projectIndex` with exactly the entry for `p1`, `activeProjectId = "p1"`,
`activeThreadId = "s1"`, and persists for `p1` a `ProjectMetadata` whose
single thread `s1` carries message `m1` verbatim with an empty document set
and a null active-document reference. -/
theorem migrate_soccer_scenario (now : Nat) :
    migrateLegacyState legacySoccer now =
      { appState :=
          { projectIndex := [⟨"p1", "Soccer", now⟩]
            threads := []
            activeProjectId := some "p1"
            activeThreadId := "s1"
            settings := migrateDefaultSettings }
        projWrites := [(projectJsonPath "p1",
          { id := "p1", name := "Soccer", documents := []
            threads := [⟨"s1", "Goals", [legacyMessage], [], none, 1000⟩]
            createdAt := 900, updatedAt := now })]
        dirsMade := [projectDocsDir "p1"] } := rfl

/-- Counterexample to C9 as stated: the distinct project ids `a/b` and `a_b`
have distinct scheduler keys but sanitize to the same file name, so their
`project.json` paths coincide. -/
theorem project_paths_collide :
    ("a/b" : String) ≠ "a_b" ∧ projectSchedKey "a/b" ≠ projectSchedKey "a_b" ∧
    projectJsonPath "a/b" = projectJsonPath "a_b" := by decide

/-- C9 (amended): distinct project ids always get distinct scheduler keys,
and their `project.json` paths are distinct whenever their sanitized forms
differ (sanitization is not injective, so this is the most the code gives);
no project's `project.json` path ever coincides with the app-state path or
with any document blob path. -/
theorem storage_paths_disjoint :
    (∀ p q : String, p ≠ q → projectSchedKey p ≠ projectSchedKey q) ∧
    (∀ p q : String, sanitizeFileName p ≠ sanitizeFileName q →
      projectJsonPath p ≠ projectJsonPath q) ∧
    (∀ p : String, projectJsonPath p ≠ appStatePath) ∧
    (∀ (p targetId stored : String) (b : Bool),
      projectJsonPath p ≠ resolveDocsDir targetId b ++ [stored]) := by
  refine ⟨?_, ?_, ?_, ?_⟩
  · intro p q hne h
    apply hne
    have hd := congrArg String.data h
    simp [projectSchedKey, String.data_append] at hd
    exact String.ext hd
  · intro p q hne h
    apply hne
    simp [projectJsonPath, projectDir] at h
    exact h
  · intro p h
    simp [projectJsonPath, projectDir, appStatePath] at h
  · intro p targetId stored b h
    have hlen := congrArg List.length h
    cases b <;>
      simp [projectJsonPath, projectDir, resolveDocsDir, threadDocsDir, projectDocsDir] at hlen

/-- Witness for C9 at concrete ids. -/
theorem storage_paths_disjoint_witness :
    ("x" : String) ≠ "y" ∧ projectSchedKey "x" ≠ projectSchedKey "y" ∧
    sanitizeFileName "x" ≠ sanitizeFileName "y" ∧
    projectJsonPath "x" ≠ projectJsonPath "y" ∧
    projectJsonPath "x" ≠ appStatePath ∧
    projectJsonPath "x" ≠ resolveDocsDir "thread-1" true ++ ["d"] :=
  ⟨by decide, storage_paths_disjoint.1 "x" "y" (by decide), by decide,
   storage_paths_disjoint.2.1 "x" "y" (by decide),
   storage_paths_disjoint.2.2.1 "x",
   storage_paths_disjoint.2.2.2 "x" "thread-1" "d" true⟩

end DocumentPilot
